import Mathlib

/-!
Shallow embedding of the prediction-market engine of this repository:
the localStorage betting module (`placeBet`, `calculateOdds`,
`resolvePrediction`), the LMSR market maker sketch
(`cost`, `current_price_yes`, `cost_to_buy`, `execute_trade`), and the
ELO-style `update_clout` rating update.  Money amounts and odds are
modelled as rationals; the transcendental LMSR pricing is modelled over
the reals.  JavaScript `Record<string, T>` maps keyed by `id` become
lists looked up by the `id` field; `Date` fields are omitted (no claim
mentions them); a thrown `Error` becomes `Except.error`.
-/

namespace Betting

/-- Bet side: the TS union type of the strings yes and no. -/
inductive Position
  | yes
  | no
deriving DecidableEq

/-- User record (id, phoneNumber, displayName, balance). -/
structure User where
  id : String
  phoneNumber : String
  displayName : String
  balance : ℚ
deriving DecidableEq

/-- Market record; the createdAt timestamp is omitted. -/
structure Market where
  id : String
  creatorId : String
  groupName : String
  participants : List String
deriving DecidableEq

/-- Prediction record; status ranges over the strings open, closed, resolved. -/
structure Prediction where
  id : String
  marketId : String
  question : String
  creatorId : String
  status : String
  resolution : Option Position
  yesPool : ℚ
  noPool : ℚ
deriving DecidableEq

/-- Bet record; the placedAt timestamp is omitted. -/
structure Bet where
  id : String
  predictionId : String
  userId : String
  amount : ℚ
  position : Position
deriving DecidableEq

/-- The whole localStorage blob. -/
structure BettingState where
  users : List User
  markets : List Market
  predictions : List Prediction
  bets : List Bet
deriving DecidableEq

/-- Lookup state.users[userId]. -/
def findUser (s : BettingState) (userId : String) : Option User :=
  s.users.find? (fun u => u.id = userId)

/-- Lookup state.predictions[predictionId]. -/
def findPrediction (s : BettingState) (predictionId : String) : Option Prediction :=
  s.predictions.find? (fun p => p.id = predictionId)

/-- In-place mutation of the user object stored under its id key. -/
def setUser (users : List User) (u : User) : List User :=
  users.map (fun v => if v.id = u.id then u else v)

/-- In-place mutation of the prediction object stored under its id key. -/
def setPrediction (preds : List Prediction) (p : Prediction) : List Prediction :=
  preds.map (fun q => if q.id = p.id then p else q)

/-- Error taxonomy of `placeBet` (one constructor per thrown message, in
source order). -/
inductive BetError
  | userNotFound
  | predictionNotFound
  | predictionClosed
  | insufficientBalance
  | nonPositiveAmount
  | alreadyBet
deriving DecidableEq

/-- Translation of `placeBet`: the six validation checks in source order,
then balance deduction, pool increment, and appending the new bet.  The
`betId` argument stands for the generated uuid. -/
def placeBet (s : BettingState) (userId predictionId : String) (amount : ℚ)
    (position : Position) (betId : String) :
    Except BetError (BettingState × Bet) :=
  match findUser s userId, findPrediction s predictionId with
  | none, _ => .error .userNotFound
  | some _, none => .error .predictionNotFound
  | some user, some prediction =>
    if prediction.status ≠ "open" then .error .predictionClosed
    else if user.balance < amount then .error .insufficientBalance
    else if amount ≤ 0 then .error .nonPositiveAmount
    else if (s.bets.find?
        (fun b => b.userId = userId ∧ b.predictionId = predictionId)).isSome then
      .error .alreadyBet
    else
      let user' := { user with balance := user.balance - amount }
      let prediction' :=
        match position with
        | .yes => { prediction with yesPool := prediction.yesPool + amount }
        | .no => { prediction with noPool := prediction.noPool + amount }
      let bet : Bet :=
        { id := betId, predictionId := predictionId, userId := userId,
          amount := amount, position := position }
      .ok ({ s with users := setUser s.users user',
                    predictions := setPrediction s.predictions prediction',
                    bets := s.bets ++ [bet] }, bet)

/-- The stored (localStorage) state after a `placeBet` call: a throw happens
before `saveState`, so it leaves the saved state untouched. -/
def placeBetStored (s : BettingState) (userId predictionId : String) (amount : ℚ)
    (position : Position) (betId : String) : BettingState :=
  match placeBet s userId predictionId amount position betId with
  | .error _ => s
  | .ok (s', _) => s'

/-- JavaScript Math.round on the nonnegative arguments arising here. -/
def jsRound (x : ℚ) : ℤ := ⌊x + 1 / 2⌋

/-- Translation of `calculateOdds`: pool-proportion percentages, rounded;
the pair (50, 50) when both pools are empty.  First component `yesOdds`,
second `noOdds`. -/
def calculateOdds (p : Prediction) : ℤ × ℤ :=
  let total := p.yesPool + p.noPool
  if total = 0 then (50, 50)
  else (jsRound (p.yesPool / total * 100), jsRound (p.noPool / total * 100))

/-- Error taxonomy of `resolvePrediction`. -/
inductive ResolveError
  | predictionNotFound
  | alreadyResolved
deriving DecidableEq

/-- One iteration of the forEach loop of `resolvePrediction`: for a bet on
the winning side, payout = totalPool * (bet.amount / winningPool) is added to
the bettor's balance (when the user record exists) and recorded in the
payouts list; a missing user record is skipped. -/
def creditStep (totalPool winningPool : ℚ)
    (acc : List User × List (String × ℚ)) (bet : Bet) :
    List User × List (String × ℚ) :=
  let winnerShare := bet.amount / winningPool
  let payout := totalPool * winnerShare
  match acc.1.find? (fun u => u.id = bet.userId) with
  | some user =>
    (setUser acc.1 { user with balance := user.balance + payout },
      acc.2 ++ [(user.id, payout)])
  | none => acc

/-- The whole forEach loop of `resolvePrediction` over the winning bets. -/
def creditWinners (users : List User) (bets : List Bet) (totalPool winningPool : ℚ) :
    List User × List (String × ℚ) :=
  bets.foldl (creditStep totalPool winningPool) (users, [])

/-- Translation of `resolvePrediction`: reject unknown or already-resolved
predictions, mark the prediction resolved, and when the winning pool is
positive credit every winning bet proportionally. -/
def resolvePrediction (s : BettingState) (predictionId : String) (resolution : Position) :
    Except ResolveError (BettingState × List (String × ℚ)) :=
  match findPrediction s predictionId with
  | none => .error .predictionNotFound
  | some prediction =>
    if prediction.status = "resolved" then .error .alreadyResolved
    else
      let prediction' :=
        { prediction with status := "resolved", resolution := some resolution }
      let totalPool := prediction.yesPool + prediction.noPool
      let winningPool :=
        match resolution with
        | .yes => prediction.yesPool
        | .no => prediction.noPool
      let winners := s.bets.filter
        (fun b => b.predictionId = predictionId ∧ b.position = resolution)
      if winningPool > 0 then
        let credited := creditWinners s.users winners totalPool winningPool
        .ok ({ s with users := credited.1,
                      predictions := setPrediction s.predictions prediction' },
             credited.2)
      else
        .ok ({ s with predictions := setPrediction s.predictions prediction' }, [])

/-- The stored state after a `resolvePrediction` call; a throw leaves it
untouched. -/
def resolvePredictionStored (s : BettingState) (predictionId : String)
    (resolution : Position) : BettingState :=
  match resolvePrediction s predictionId resolution with
  | .error _ => s
  | .ok (s', _) => s'

end Betting

namespace Betting

/-- Every user starts with one hundred dollars. -/
def STARTING_BALANCE : ℚ := 100

/-- Translation of `createUser` (the uuid is passed in). -/
def createUser (s : BettingState) (id phoneNumber displayName : String) : BettingState :=
  { s with users := s.users ++
      [{ id := id, phoneNumber := phoneNumber, displayName := displayName,
         balance := STARTING_BALANCE }] }

/-- Translation of `createMarket`: the creator is auto-added as participant. -/
def createMarket (s : BettingState) (id creatorId groupName : String) : BettingState :=
  { s with markets := s.markets ++
      [{ id := id, creatorId := creatorId, groupName := groupName,
         participants := [creatorId] }] }

/-- Translation of `addParticipant`: push the user onto the participants of
the named market unless already present; unknown market throws (stored state
unchanged). -/
def addParticipant (s : BettingState) (marketId userId : String) : BettingState :=
  match s.markets.find? (fun m => m.id = marketId) with
  | none => s
  | some _ =>
    { s with markets := s.markets.map (fun m =>
        if m.id = marketId ∧ userId ∉ m.participants
        then { m with participants := m.participants ++ [userId] } else m) }

/-- Translation of `createPrediction`: status open, both pools zero. -/
def createPrediction (s : BettingState) (id marketId creatorId question : String) :
    BettingState :=
  { s with predictions := s.predictions ++
      [{ id := id, marketId := marketId, question := question,
         creatorId := creatorId, status := "open", resolution := none,
         yesPool := 0, noPool := 0 }] }

/-- Translation of `updateUserBalance`; unknown user throws (stored state
unchanged). -/
def updateUserBalance (s : BettingState) (userId : String) (amount : ℚ) : BettingState :=
  match findUser s userId with
  | none => s
  | some user =>
    { s with users := setUser s.users { user with balance := user.balance + amount } }

/-- One mutating call into the betting module, with the generated uuids passed
explicitly. -/
inductive Op
  | createUser (id phoneNumber displayName : String)
  | createMarket (id creatorId groupName : String)
  | addParticipant (marketId userId : String)
  | createPrediction (id marketId creatorId question : String)
  | placeBet (userId predictionId : String) (amount : ℚ) (position : Position)
      (betId : String)
  | updateUserBalance (userId : String) (amount : ℚ)
  | resolvePrediction (predictionId : String) (resolution : Position)

/-- Stored-state semantics of one call: a thrown error leaves the stored
state unchanged. -/
def applyOp (s : BettingState) : Op → BettingState
  | .createUser id phone name => createUser s id phone name
  | .createMarket id creator group => createMarket s id creator group
  | .addParticipant marketId userId => addParticipant s marketId userId
  | .createPrediction id marketId creatorId q => createPrediction s id marketId creatorId q
  | .placeBet userId predictionId amount position betId =>
      placeBetStored s userId predictionId amount position betId
  | .updateUserBalance userId amount => updateUserBalance s userId amount
  | .resolvePrediction predictionId resolution =>
      resolvePredictionStored s predictionId resolution

/-- The empty initial state of the module. -/
def emptyState : BettingState :=
  { users := [], markets := [], predictions := [], bets := [] }

/-- Run a sequence of calls from the empty stored state. -/
def runOps (ops : List Op) : BettingState := ops.foldl applyOp emptyState

/-- At most one bet is recorded per (user, prediction) pair. -/
def atMostOneBet (s : BettingState) : Prop :=
  ∀ userId predictionId : String,
    (s.bets.countP
      (fun b => b.userId = userId ∧ b.predictionId = predictionId)) ≤ 1

end Betting

namespace Betting

/-- The claim C2 concerns: resolving an already-resolved prediction is
rejected before any mutation. -/
theorem resolve_already_resolved_rejected (s : BettingState) (pid : String)
    (res : Position) (P : Prediction)
    (hfind : findPrediction s pid = some P) (hres : P.status = "resolved") :
    resolvePrediction s pid res = .error .alreadyResolved ∧
      resolvePredictionStored s pid res = s := by
  have h1 : resolvePrediction s pid res = .error .alreadyResolved := by
    unfold resolvePrediction
    rw [hfind]
    simp [hres]
  refine ⟨h1, ?_⟩
  unfold resolvePredictionStored
  rw [h1]

/-- A failed `placeBet` call is a throw before `saveState`: the stored state
is the input state. -/
theorem placeBetStored_of_error (s : BettingState) (u p : String) (a : ℚ)
    (pos : Position) (bid : String) (e : BetError)
    (h : placeBet s u p a pos bid = .error e) :
    placeBetStored s u p a pos bid = s := by
  unfold placeBetStored
  rw [h]

/-- Concrete resolved prediction used by the C2 witness. -/
def wPredC2 : Prediction :=
  { id := "p", marketId := "m", question := "q", creatorId := "c",
    status := "resolved", resolution := some .yes, yesPool := 10, noPool := 5 }

/-- Concrete state used by the C2 witness. -/
def wStateC2 : BettingState :=
  { users := [], markets := [], predictions := [wPredC2], bets := [] }

/-- Witness for C2 at a concrete already-resolved state. -/
theorem resolve_already_resolved_rejected_witness :
    resolvePrediction wStateC2 "p" .yes = .error .alreadyResolved ∧
      resolvePredictionStored wStateC2 "p" .yes = wStateC2 :=
  resolve_already_resolved_rejected wStateC2 "p" .yes wPredC2 (by decide) (by decide)

end Betting

namespace Betting

/-- The claim C4 concerns (amended): with the user and prediction both found,
a non-open prediction is rejected with the closed-prediction error, and a
non-positive or balance-exceeding amount is rejected, each before any
mutation of the stored state. -/
theorem placeBet_state_and_amount_checks (s : BettingState) (u p : String)
    (a : ℚ) (pos : Position) (bid : String) (U : User) (P : Prediction)
    (hu : findUser s u = some U) (hp : findPrediction s p = some P) :
    (P.status ≠ "open" →
      placeBet s u p a pos bid = .error .predictionClosed ∧
        placeBetStored s u p a pos bid = s) ∧
    (P.status = "open" → U.balance < a →
      placeBet s u p a pos bid = .error .insufficientBalance ∧
        placeBetStored s u p a pos bid = s) ∧
    (P.status = "open" → ¬U.balance < a → a ≤ 0 →
      placeBet s u p a pos bid = .error .nonPositiveAmount ∧
        placeBetStored s u p a pos bid = s) := by
  refine ⟨fun hst => ?_, fun hst hbal => ?_, fun hst hbal hle => ?_⟩
  · have h : placeBet s u p a pos bid = .error .predictionClosed := by
      simp only [placeBet, hu, hp]
      simp [hst]
    exact ⟨h, placeBetStored_of_error s u p a pos bid _ h⟩
  · have h : placeBet s u p a pos bid = .error .insufficientBalance := by
      simp only [placeBet, hu, hp]
      simp [hst, hbal]
    exact ⟨h, placeBetStored_of_error s u p a pos bid _ h⟩
  · have h : placeBet s u p a pos bid = .error .nonPositiveAmount := by
      simp only [placeBet, hu, hp]
      simp [hst, hbal, hle]
    exact ⟨h, placeBetStored_of_error s u p a pos bid _ h⟩

/-- Concrete user for the C4 theorems. -/
def userC4 : User :=
  { id := "u", phoneNumber := "555", displayName := "U", balance := 100 }

/-- Concrete closed prediction for the C4 witness. -/
def closedPredC4 : Prediction :=
  { id := "p", marketId := "m", question := "q", creatorId := "c",
    status := "closed", resolution := none, yesPool := 0, noPool := 0 }

/-- Concrete state with a closed prediction for the C4 witness. -/
def closedStateC4 : BettingState :=
  { users := [userC4], markets := [], predictions := [closedPredC4], bets := [] }

/-- Concrete open prediction for the C4 counterexample. -/
def openPredC4 : Prediction :=
  { id := "p", marketId := "m", question := "q", creatorId := "c",
    status := "open", resolution := none, yesPool := 0, noPool := 0 }

/-- Concrete state with an open prediction for the C4 counterexample. -/
def openStateC4 : BettingState :=
  { users := [userC4], markets := [], predictions := [openPredC4], bets := [] }

/-- Witness for the amended C4: a bet on a closed prediction is rejected with
the stored state unchanged, and a non-positive amount is rejected. -/
theorem placeBet_state_and_amount_checks_witness :
    (placeBet closedStateC4 "u" "p" 5 .yes "b" = .error .predictionClosed ∧
      placeBetStored closedStateC4 "u" "p" 5 .yes "b" = closedStateC4) ∧
    (placeBet openStateC4 "u" "p" (-3) .yes "b" = .error .nonPositiveAmount ∧
      placeBetStored openStateC4 "u" "p" (-3) .yes "b" = openStateC4) := by
  constructor
  · exact (placeBet_state_and_amount_checks closedStateC4 "u" "p" 5 .yes "b"
      userC4 closedPredC4 (by decide) (by decide)).1 (by decide)
  · exact (placeBet_state_and_amount_checks openStateC4 "u" "p" (-3) .yes "b"
      userC4 openPredC4 (by decide) (by decide)).2.2 (by decide)
      (by norm_num [userC4]) (by norm_num)

/-- Counterexample to C4 as stated: the database schema configures rooms with
a default minimum bet of ten, yet `placeBet` accepts an amount of one — no
minBet or maxBet interval is checked anywhere in the betting module. -/
theorem placeBet_no_min_max_bet_counterexample :
    (1 : ℚ) < 10 ∧
      placeBet openStateC4 "u" "p" 1 .yes "b1" =
        .ok ({ users := [{ id := "u", phoneNumber := "555", displayName := "U",
                           balance := 99 }],
               markets := [],
               predictions := [{ id := "p", marketId := "m", question := "q",
                                 creatorId := "c", status := "open",
                                 resolution := none, yesPool := 1, noPool := 0 }],
               bets := [{ id := "b1", predictionId := "p", userId := "u",
                          amount := 1, position := .yes }] },
             { id := "b1", predictionId := "p", userId := "u", amount := 1,
               position := .yes }) := by
  refine ⟨by norm_num, ?_⟩
  simp only [placeBet, findUser, findPrediction, openStateC4, userC4, openPredC4,
    setUser, setPrediction, List.find?]
  norm_num [List.find?]

end Betting

namespace Betting

/-- The duplicate-bet lookup succeeds exactly when a bet by the user on the
prediction is already recorded. -/
theorem findBet_isSome_iff (s : BettingState) (u p : String) :
    (s.bets.find? (fun b => b.userId = u ∧ b.predictionId = p)).isSome ↔
      ∃ b ∈ s.bets, b.userId = u ∧ b.predictionId = p := by
  simp [List.find?_isSome]

/-- Characterization of `placeBet` rejection: the call throws exactly when
one of the six validation conditions holds. -/
theorem placeBet_error_iff (s : BettingState) (u p : String) (a : ℚ)
    (pos : Position) (bid : String) :
    (∃ e, placeBet s u p a pos bid = .error e) ↔
      findUser s u = none ∨
      findPrediction s p = none ∨
      (∃ P, findPrediction s p = some P ∧ P.status ≠ "open") ∨
      (∃ U, findUser s u = some U ∧ U.balance < a) ∨
      a ≤ 0 ∨
      (∃ b ∈ s.bets, b.userId = u ∧ b.predictionId = p) := by
  cases hu : findUser s u with
  | none =>
    exact iff_of_true ⟨.userNotFound, by simp only [placeBet, hu]⟩ (Or.inl rfl)
  | some U =>
    cases hp : findPrediction s p with
    | none =>
      exact iff_of_true ⟨.predictionNotFound, by simp only [placeBet, hu, hp]⟩
        (Or.inr (Or.inl rfl))
    | some P =>
      by_cases hst : P.status = "open"
      · by_cases hbal : U.balance < a
        · refine iff_of_true ⟨.insufficientBalance, ?_⟩
            (Or.inr (Or.inr (Or.inr (Or.inl ⟨U, rfl, hbal⟩))))
          simp only [placeBet, hu, hp]
          simp [hst, hbal]
        · by_cases ha : a ≤ 0
          · refine iff_of_true ⟨.nonPositiveAmount, ?_⟩
              (Or.inr (Or.inr (Or.inr (Or.inr (Or.inl ha)))))
            simp only [placeBet, hu, hp]
            simp [hst, hbal, ha]
          · by_cases hdup :
              (s.bets.find? (fun b => b.userId = u ∧ b.predictionId = p)).isSome
            · have hdup2 := (findBet_isSome_iff s u p).mp hdup
              refine iff_of_true ⟨.alreadyBet, ?_⟩
                (Or.inr (Or.inr (Or.inr (Or.inr (Or.inr hdup2)))))
              simp only [placeBet, hu, hp]
              simp only [hst, hbal, ha, hdup]
              simp [hdup2]
            · have hnodup : ¬∃ b ∈ s.bets, b.userId = u ∧ b.predictionId = p :=
                fun hx => hdup ((findBet_isSome_iff s u p).mpr hx)
              refine iff_of_false ?_ ?_
              · rintro ⟨e, he⟩
                revert he
                simp only [placeBet, hu, hp]
                simp [hst, hbal, ha, hnodup]
              · rintro (h | h | ⟨P', hP', hP's⟩ | ⟨U', hU', hU'b⟩ | h | hdup')
                · exact Option.noConfusion h
                · exact Option.noConfusion h
                · cases Option.some.inj hP'
                  exact hP's hst
                · cases Option.some.inj hU'
                  exact hbal hU'b
                · exact ha h
                · exact hdup ((findBet_isSome_iff s u p).mpr hdup')
      · refine iff_of_true ⟨.predictionClosed, ?_⟩
          (Or.inr (Or.inr (Or.inl ⟨P, rfl, hst⟩)))
        simp only [placeBet, hu, hp]
        simp [hst]

/-- The claim C9 concerns: whenever `placeBet` rejects — and it rejects
exactly for the six validation conditions — the stored state is completely
unchanged. -/
theorem placeBet_rejection_leaves_state_unchanged (s : BettingState)
    (u p : String) (a : ℚ) (pos : Position) (bid : String) :
    ((∃ e, placeBet s u p a pos bid = .error e) ↔
      findUser s u = none ∨
      findPrediction s p = none ∨
      (∃ P, findPrediction s p = some P ∧ P.status ≠ "open") ∨
      (∃ U, findUser s u = some U ∧ U.balance < a) ∨
      a ≤ 0 ∨
      (∃ b ∈ s.bets, b.userId = u ∧ b.predictionId = p)) ∧
    (∀ e, placeBet s u p a pos bid = .error e →
      placeBetStored s u p a pos bid = s) :=
  ⟨placeBet_error_iff s u p a pos bid,
    fun e he => placeBetStored_of_error s u p a pos bid e he⟩

/-- Witness for C9: betting as an unknown user is rejected and the stored
state is exactly the input state. -/
theorem placeBet_rejection_leaves_state_unchanged_witness :
    (∃ e, placeBet emptyState "u" "p" 5 .yes "b" = .error e) ∧
      placeBetStored emptyState "u" "p" 5 .yes "b" = emptyState := by
  have h := placeBet_rejection_leaves_state_unchanged emptyState "u" "p" 5 .yes "b"
  have herr := h.1.mpr (Or.inl (by decide))
  obtain ⟨e, he⟩ := herr
  exact ⟨⟨e, he⟩, h.2 e he⟩

end Betting

namespace Betting

/-- Characterization of an accepted bet: the new stored state appends exactly
one bet, by this user on this prediction, and no such bet existed before. -/
theorem placeBet_ok_spec (s : BettingState) (u p : String) (a : ℚ)
    (pos : Position) (bid : String) (s' : BettingState) (bet : Bet)
    (h : placeBet s u p a pos bid = .ok (s', bet)) :
    s'.bets = s.bets ++ [bet] ∧ bet.userId = u ∧ bet.predictionId = p ∧
      ∀ b ∈ s.bets, ¬(b.userId = u ∧ b.predictionId = p) := by
  cases hu : findUser s u with
  | none =>
    simp only [placeBet, hu] at h
    exact Except.noConfusion h
  | some U =>
    cases hp : findPrediction s p with
    | none =>
      simp only [placeBet, hu, hp] at h
      exact Except.noConfusion h
    | some P =>
      simp only [placeBet, hu, hp] at h
      split_ifs at h with h1 h2 h3 h4
      injection h with h5
      injection h5 with h6 h7
      subst h6
      subst h7
      refine ⟨rfl, rfl, rfl, ?_⟩
      intro b hb hcon
      exact h4 ((findBet_isSome_iff s u p).mpr ⟨b, hb, hcon⟩)

/-- Every operation preserves the at-most-one-bet-per-pair invariant. -/
theorem applyOp_preserves_atMostOneBet (s : BettingState) (op : Op)
    (h : atMostOneBet s) : atMostOneBet (applyOp s op) := by
  cases op with
  | createUser id ph nm => exact fun u' p' => h u' p'
  | createMarket id cr gp => exact fun u' p' => h u' p'
  | addParticipant mid uid =>
    intro u' p'
    show ((addParticipant s mid uid).bets.countP _) ≤ 1
    have hb : (addParticipant s mid uid).bets = s.bets := by
      unfold addParticipant
      cases s.markets.find? (fun m => m.id = mid) <;> rfl
    rw [hb]
    exact h u' p'
  | createPrediction id mid cr q => exact fun u' p' => h u' p'
  | updateUserBalance uid amt =>
    intro u' p'
    show ((updateUserBalance s uid amt).bets.countP _) ≤ 1
    have hb : (updateUserBalance s uid amt).bets = s.bets := by
      unfold updateUserBalance
      cases findUser s uid <;> rfl
    rw [hb]
    exact h u' p'
  | resolvePrediction pid res =>
    intro u' p'
    show ((resolvePredictionStored s pid res).bets.countP _) ≤ 1
    have hb : (resolvePredictionStored s pid res).bets = s.bets := by
      unfold resolvePredictionStored
      cases hres : resolvePrediction s pid res with
      | error e => rfl
      | ok r =>
        obtain ⟨s', ps⟩ := r
        cases hp : findPrediction s pid with
        | none =>
          simp only [resolvePrediction, hp] at hres
          exact Except.noConfusion hres
        | some P =>
          simp only [resolvePrediction, hp] at hres
          split_ifs at hres with h1 h2
          all_goals
            injection hres with h5
            injection h5 with h6 h7
            subst h6
            rfl
    rw [hb]
    exact h u' p'
  | placeBet uid pid amt pos bid =>
    intro u' p'
    show ((placeBetStored s uid pid amt pos bid).bets.countP _) ≤ 1
    unfold placeBetStored
    cases hres : placeBet s uid pid amt pos bid with
    | error e => exact h u' p'
    | ok r =>
      obtain ⟨s', bet⟩ := r
      obtain ⟨hbets, hbu, hbp, hnone⟩ := placeBet_ok_spec s uid pid amt pos bid s' bet hres
      show (s'.bets.countP _) ≤ 1
      rw [hbets, List.countP_append]
      by_cases hmatch : bet.userId = u' ∧ bet.predictionId = p'
      · have hzero : s.bets.countP
            (fun b => b.userId = u' ∧ b.predictionId = p') = 0 := by
          rw [List.countP_eq_zero]
          intro b hb
          simp only [decide_eq_true_eq]
          intro hcon
          exact hnone b hb ⟨by rw [hcon.1, ← hmatch.1, hbu],
            by rw [hcon.2, ← hmatch.2, hbp]⟩
        rw [hzero]
        simp only [List.countP_cons, List.countP_nil]
        split_ifs <;> simp
      · have hone : List.countP
            (fun b => decide (b.userId = u' ∧ b.predictionId = p')) [bet] = 0 := by
          simp [List.countP_cons, hmatch]
        rw [hone]
        simpa using h u' p'

/-- Starting from the empty stored state, any sequence of calls keeps at most
one bet per (user, prediction) pair. -/
theorem runOps_atMostOneBet (ops : List Op) : atMostOneBet (runOps ops) := by
  suffices hgen : ∀ s, atMostOneBet s → atMostOneBet (ops.foldl applyOp s) by
    refine hgen emptyState ?_
    intro u p
    simp [emptyState]
  induction ops with
  | nil => exact fun s hs => hs
  | cons op rest ih =>
    exact fun s hs => ih (applyOp s op) (applyOp_preserves_atMostOneBet s op hs)

/-- The claim C10 concerns: a second bet by the same user on the same
prediction is always rejected, and consequently every state reachable by any
sequence of operations holds at most one bet per (user, prediction) pair. -/
theorem at_most_one_bet_invariant :
    (∀ (s : BettingState) (u p : String) (a : ℚ) (pos : Position) (bid : String),
      (∃ b ∈ s.bets, b.userId = u ∧ b.predictionId = p) →
        ∃ e, placeBet s u p a pos bid = .error e) ∧
    (∀ ops : List Op, atMostOneBet (runOps ops)) := by
  refine ⟨fun s u p a pos bid hdup => ?_, runOps_atMostOneBet⟩
  exact (placeBet_error_iff s u p a pos bid).mpr
    (Or.inr (Or.inr (Or.inr (Or.inr (Or.inr hdup)))))

/-- Concrete existing bet for the C10 witness. -/
def betC10 : Bet :=
  { id := "b1", predictionId := "p", userId := "u", amount := 5, position := .yes }

/-- Concrete state with one recorded bet for the C10 witness. -/
def dupStateC10 : BettingState :=
  { users := [], markets := [], predictions := [], bets := [betC10] }

/-- Witness for C10: a second bet by the same user on the same prediction is
rejected. -/
theorem at_most_one_bet_invariant_witness :
    ∃ e, placeBet dupStateC10 "u" "p" 7 .yes "b2" = .error e :=
  at_most_one_bet_invariant.1 dupStateC10 "u" "p" 7 .yes "b2"
    ⟨betC10, by simp [dupStateC10], rfl, rfl⟩

end Betting

namespace Betting

/-- Replacing a user object under its key never changes the list of ids. -/
theorem setUser_map_id (users : List User) (u : User) :
    (setUser users u).map (fun v => v.id) = users.map (fun v => v.id) := by
  unfold setUser
  rw [List.map_map]
  refine List.map_congr_left fun v hv => ?_
  by_cases h : v.id = u.id
  · simp [Function.comp, h]
  · simp [Function.comp, h]

/-- Lookup of a different key is unaffected by `setUser`. -/
theorem find?_setUser_ne (users : List User) (u : User) (x : String)
    (hx : u.id ≠ x) :
    (setUser users u).find? (fun v => v.id = x) =
      users.find? (fun v => v.id = x) := by
  induction users with
  | nil => rfl
  | cons v rest ih =>
    unfold setUser at ih ⊢
    simp only [List.map_cons]
    by_cases h1 : v.id = u.id
    · have hu : decide (u.id = x) = false := by simp [hx]
      have hv : decide (v.id = x) = false := by simp [h1, hx]
      rw [if_pos h1]
      simp only [List.find?, hu, hv]
      exact ih
    · rw [if_neg h1]
      by_cases h2 : v.id = x
      · have hv : decide (v.id = x) = true := by simp [h2]
        simp only [List.find?, hv]
      · have hv : decide (v.id = x) = false := by simp [h2]
        simp only [List.find?, hv]
        exact ih

/-- Lookup of the written key after `setUser` returns the written object,
provided the key was present. -/
theorem find?_setUser_self (users : List User) (u : User) (w : User)
    (hw : users.find? (fun v => v.id = u.id) = some w) :
    (setUser users u).find? (fun v => v.id = u.id) = some u := by
  induction users with
  | nil => exact Option.noConfusion hw
  | cons v rest ih =>
    unfold setUser at ih ⊢
    simp only [List.map_cons]
    by_cases h1 : v.id = u.id
    · rw [if_pos h1]
      simp [List.find?]
    · have hv : decide (v.id = u.id) = false := by simp [h1]
      rw [if_neg h1]
      simp only [List.find?, hv]
      simp only [List.find?, hv] at hw
      exact ih hw

/-- A user id lookup succeeds exactly when the id occurs in the list. -/
theorem find?_id_isSome (users : List User) (x : String) :
    (users.find? (fun v => v.id = x)).isSome ↔
      x ∈ users.map (fun v => v.id) := by
  rw [List.find?_isSome]
  constructor
  · rintro ⟨v, hv, hvx⟩
    exact List.mem_map.mpr ⟨v, hv, by simpa using hvx⟩
  · rintro hmem
    obtain ⟨v, hv, hvx⟩ := List.mem_map.mp hmem
    exact ⟨v, hv, by simp [hvx]⟩

/-- One credit step never changes the list of user ids. -/
theorem creditStep_map_id (tp wp : ℚ) (acc : List User × List (String × ℚ))
    (bet : Bet) :
    (creditStep tp wp acc bet).1.map (fun v => v.id) =
      acc.1.map (fun v => v.id) := by
  unfold creditStep
  cases hf : acc.1.find? (fun u => u.id = bet.userId) with
  | none => rfl
  | some user =>
    simpa using setUser_map_id acc.1
      { user with balance := user.balance + tp * (bet.amount / wp) }

/-- The whole payout loop never changes the list of user ids. -/
theorem foldl_creditStep_map_id (tp wp : ℚ) :
    ∀ (bets : List Bet) (acc : List User × List (String × ℚ)),
      (bets.foldl (creditStep tp wp) acc).1.map (fun v => v.id) =
        acc.1.map (fun v => v.id)
  | [], acc => rfl
  | bet :: rest, acc => by
    rw [List.foldl_cons, foldl_creditStep_map_id tp wp rest _]
    exact creditStep_map_id tp wp acc bet

/-- One credit step on a bet whose user exists appends exactly the payout
entry (userId, totalPool * amount / winningPool). -/
theorem creditStep_payouts (tp wp : ℚ) (acc : List User × List (String × ℚ))
    (bet : Bet) (hmem : bet.userId ∈ acc.1.map (fun v => v.id)) :
    (creditStep tp wp acc bet).2 =
      acc.2 ++ [(bet.userId, tp * (bet.amount / wp))] := by
  unfold creditStep
  cases hf : acc.1.find? (fun u => u.id = bet.userId) with
  | none =>
    rw [← find?_id_isSome, hf] at hmem
    simp at hmem
  | some user =>
    have hid : user.id = bet.userId := by simpa using List.find?_some hf
    simp [hid]

/-- The payout loop over bets whose users all exist records exactly one
proportional payout entry per bet, in order. -/
theorem foldl_creditStep_payouts (tp wp : ℚ) :
    ∀ (bets : List Bet) (acc : List User × List (String × ℚ)),
      (∀ b ∈ bets, b.userId ∈ acc.1.map (fun v => v.id)) →
      (bets.foldl (creditStep tp wp) acc).2 =
        acc.2 ++ bets.map (fun b => (b.userId, tp * (b.amount / wp)))
  | [], acc, _ => by simp
  | bet :: rest, acc, hmem => by
    have hmem1 : bet.userId ∈ acc.1.map (fun v => v.id) :=
      hmem bet (List.mem_cons_self bet rest)
    have hmem2 : ∀ b ∈ rest, b.userId ∈
        (creditStep tp wp acc bet).1.map (fun v => v.id) := by
      intro b hb
      rw [creditStep_map_id]
      exact hmem b (List.mem_cons_of_mem bet hb)
    rw [List.foldl_cons, foldl_creditStep_payouts tp wp rest _ hmem2,
      creditStep_payouts tp wp acc bet hmem1]
    simp

/-- A credit step for a different user leaves a user's stored record alone. -/
theorem creditStep_find?_ne (tp wp : ℚ) (acc : List User × List (String × ℚ))
    (bet : Bet) (x : String) (hx : x ≠ bet.userId) :
    (creditStep tp wp acc bet).1.find? (fun v => v.id = x) =
      acc.1.find? (fun v => v.id = x) := by
  unfold creditStep
  cases hf : acc.1.find? (fun u => u.id = bet.userId) with
  | none => rfl
  | some user =>
    have hid : user.id = bet.userId := by simpa using List.find?_some hf
    refine find?_setUser_ne acc.1 _ x ?_
    show user.id ≠ x
    rw [hid]
    exact fun h => hx h.symm

/-- The payout loop leaves every user outside the bet list alone. -/
theorem foldl_creditStep_find?_ne (tp wp : ℚ) :
    ∀ (bets : List Bet) (acc : List User × List (String × ℚ)) (x : String),
      x ∉ bets.map (fun b => b.userId) →
      (bets.foldl (creditStep tp wp) acc).1.find? (fun v => v.id = x) =
        acc.1.find? (fun v => v.id = x)
  | [], acc, x, _ => rfl
  | bet :: rest, acc, x, hx => by
    have hx1 : x ≠ bet.userId := fun h => hx (by simp [h])
    have hx2 : x ∉ rest.map (fun b => b.userId) := fun h => hx (by simp [h])
    rw [List.foldl_cons, foldl_creditStep_find?_ne tp wp rest _ x hx2,
      creditStep_find?_ne tp wp acc bet x hx1]

end Betting

namespace Betting

/-- The balance recorded for a user id, when that user exists. -/
def balanceOf (users : List User) (x : String) : Option ℚ :=
  (users.find? (fun v => v.id = x)).map (fun v => v.balance)

/-- A credit step on a bet whose user exists adds exactly the payout to that
user's stored balance. -/
theorem creditStep_balance_self (tp wp : ℚ) (acc : List User × List (String × ℚ))
    (bet : Bet) (hmem : bet.userId ∈ acc.1.map (fun v => v.id)) :
    balanceOf (creditStep tp wp acc bet).1 bet.userId =
      (balanceOf acc.1 bet.userId).map
        (fun bal => bal + tp * (bet.amount / wp)) := by
  unfold creditStep balanceOf
  cases hf : acc.1.find? (fun u => u.id = bet.userId) with
  | none =>
    rw [← find?_id_isSome, hf] at hmem
    simp at hmem
  | some user =>
    have hid : user.id = bet.userId := by simpa using List.find?_some hf
    rw [← hid] at hf ⊢
    rw [find?_setUser_self acc.1
      { user with balance := user.balance + tp * (bet.amount / wp) } user hf]
    simp

/-- Through the whole payout loop, a bettor appearing exactly once in the
winning-bet list and present in the user table is credited exactly
totalPool * (amount / winningPool). -/
theorem foldl_creditStep_balance (tp wp : ℚ) :
    ∀ (bets : List Bet) (acc : List User × List (String × ℚ)) (bet : Bet),
      bet ∈ bets →
      (∀ b ∈ bets, b.userId ∈ acc.1.map (fun v => v.id)) →
      (bets.map (fun b => b.userId)).Nodup →
      balanceOf (bets.foldl (creditStep tp wp) acc).1 bet.userId =
        (balanceOf acc.1 bet.userId).map
          (fun bal => bal + tp * (bet.amount / wp))
  | [], _, _, hmem, _, _ => absurd hmem (List.not_mem_nil _)
  | b0 :: rest, acc, bet, hmem, hall, hnodup => by
    simp only [List.map_cons, List.nodup_cons] at hnodup
    rw [List.foldl_cons]
    rcases List.mem_cons.mp hmem with hb | hb
    · subst hb
      have hnotin : bet.userId ∉ rest.map (fun b => b.userId) := hnodup.1
      have h1 : balanceOf
          (rest.foldl (creditStep tp wp) (creditStep tp wp acc bet)).1 bet.userId =
          balanceOf (creditStep tp wp acc bet).1 bet.userId := by
        unfold balanceOf
        rw [foldl_creditStep_find?_ne tp wp rest _ bet.userId hnotin]
      rw [h1]
      exact creditStep_balance_self tp wp acc bet
        (hall bet (List.mem_cons_self _ _))
    · have hne : bet.userId ≠ b0.userId := by
        intro h
        exact hnodup.1 (h ▸ List.mem_map_of_mem (fun b => b.userId) hb)
      have hall2 : ∀ b ∈ rest, b.userId ∈
          (creditStep tp wp acc b0).1.map (fun v => v.id) := by
        intro b hbmem
        rw [creditStep_map_id]
        exact hall b (List.mem_cons_of_mem _ hbmem)
      have hstep : balanceOf (creditStep tp wp acc b0).1 bet.userId =
          balanceOf acc.1 bet.userId := by
        unfold balanceOf
        rw [creditStep_find?_ne tp wp acc b0 bet.userId hne]
      rw [foldl_creditStep_balance tp wp rest _ bet hb hall2 hnodup.2, hstep]

/-- Summing the proportional payouts over bets whose amounts sum to the
winning pool yields exactly the total pool. -/
theorem sum_map_payouts (tp wp : ℚ) (bets : List Bet) (hwp : wp ≠ 0)
    (hsum : (bets.map (fun b => b.amount)).sum = wp) :
    (((bets.map (fun b => (b.userId, tp * (b.amount / wp)))).map
      (fun q => q.2)).sum) = tp := by
  rw [List.map_map]
  have hfun : ((fun q : String × ℚ => q.2) ∘
      fun b : Bet => (b.userId, tp * (b.amount / wp))) =
        fun b : Bet => (tp / wp) * b.amount := by
    funext b
    simp only [Function.comp]
    ring
  rw [hfun, List.sum_map_mul_left, hsum]
  exact div_mul_cancel₀ tp hwp

/-- The bets recorded on the winning side of a prediction. -/
def winningBets (s : BettingState) (predictionId : String)
    (resolution : Position) : List Bet :=
  s.bets.filter (fun b => b.predictionId = predictionId ∧ b.position = resolution)

/-- The pool on the winning side of a prediction. -/
def winningPoolOf (P : Prediction) : Position → ℚ
  | .yes => P.yesPool
  | .no => P.noPool

/-- The prediction object after being marked resolved. -/
def markResolved (P : Prediction) (res : Position) : Prediction :=
  { P with status := "resolved", resolution := some res }

/-- Characterization of a successful resolution in terms of the payout loop. -/
theorem resolve_ok_shape (s : BettingState) (pid : String) (res : Position)
    (P : Prediction) (hfind : findPrediction s pid = some P)
    (hopen : P.status ≠ "resolved") :
    resolvePrediction s pid res =
      (if winningPoolOf P res > 0 then
        Except.ok ({ s with
            users := (creditWinners s.users (winningBets s pid res)
              (P.yesPool + P.noPool) (winningPoolOf P res)).1,
            predictions := setPrediction s.predictions (markResolved P res) },
          (creditWinners s.users (winningBets s pid res)
            (P.yesPool + P.noPool) (winningPoolOf P res)).2)
      else
        Except.ok ({ s with
            predictions := setPrediction s.predictions (markResolved P res) },
          [])) := by
  cases res <;>
    simp only [resolvePrediction, hfind, if_neg hopen, winningPoolOf, winningBets,
      markResolved]

end Betting

namespace Betting

/-- The claim C1 concerns: resolving a not-yet-resolved prediction pays only
the winning-side bets, each exactly totalPool * (amount / winningPool); the
payouts sum to exactly the total pool; losing-side bettors are absent from the
payout list and their balances are untouched; and a zero winning pool forfeits
the pool with no payouts at all. -/
theorem resolve_payouts_winners_proportional (s : BettingState) (pid : String)
    (res : Position) (P : Prediction)
    (hfind : findPrediction s pid = some P)
    (hopen : P.status ≠ "resolved")
    (hwp : winningPoolOf P res =
      ((winningBets s pid res).map (fun b => b.amount)).sum)
    (husers : ∀ b ∈ winningBets s pid res,
      b.userId ∈ s.users.map (fun v => v.id))
    (hnodup : ((winningBets s pid res).map (fun b => b.userId)).Nodup) :
    ∃ s' payouts, resolvePrediction s pid res = .ok (s', payouts) ∧
      (0 < winningPoolOf P res →
        payouts = (winningBets s pid res).map
          (fun b => (b.userId,
            (P.yesPool + P.noPool) * (b.amount / winningPoolOf P res))) ∧
        (payouts.map (fun q => q.2)).sum = P.yesPool + P.noPool ∧
        (∀ b ∈ winningBets s pid res,
          balanceOf s'.users b.userId =
            (balanceOf s.users b.userId).map (fun bal =>
              bal + (P.yesPool + P.noPool) *
                (b.amount / winningPoolOf P res))) ∧
        (∀ x, x ∉ (winningBets s pid res).map (fun b => b.userId) →
          balanceOf s'.users x = balanceOf s.users x ∧
            x ∉ payouts.map (fun q => q.1))) ∧
      (¬0 < winningPoolOf P res → payouts = [] ∧ s'.users = s.users) := by
  rw [resolve_ok_shape s pid res P hfind hopen]
  by_cases hpos : winningPoolOf P res > 0
  · rw [if_pos hpos]
    have hpayouts : (creditWinners s.users (winningBets s pid res)
        (P.yesPool + P.noPool) (winningPoolOf P res)).2 =
        (winningBets s pid res).map
          (fun b => (b.userId,
            (P.yesPool + P.noPool) * (b.amount / winningPoolOf P res))) := by
      unfold creditWinners
      rw [foldl_creditStep_payouts _ _ (winningBets s pid res) (s.users, []) husers]
      simp
    refine ⟨_, _, rfl, fun _ => ⟨hpayouts, ?_, ?_, ?_⟩, fun h => absurd hpos h⟩
    · rw [hpayouts]
      exact sum_map_payouts _ _ _ (ne_of_gt hpos) hwp.symm
    · intro b hb
      exact foldl_creditStep_balance _ _ (winningBets s pid res)
        (s.users, []) b hb husers hnodup
    · intro x hx
      refine ⟨?_, ?_⟩
      · show balanceOf (creditWinners s.users (winningBets s pid res)
            (P.yesPool + P.noPool) (winningPoolOf P res)).1 x = balanceOf s.users x
        unfold balanceOf creditWinners
        rw [foldl_creditStep_find?_ne _ _ (winningBets s pid res) (s.users, []) x hx]
      · rw [hpayouts, List.map_map]
        intro hcon
        refine hx ?_
        obtain ⟨b, hbmem, hbx⟩ := List.mem_map.mp hcon
        exact List.mem_map.mpr ⟨b, hbmem, hbx⟩
  · rw [if_neg hpos]
    exact ⟨_, _, rfl, fun h => absurd h hpos, fun _ => ⟨rfl, rfl⟩⟩

end Betting

namespace Betting

/-- Concrete open prediction with a 10-yes / 5-no pool for the C1 witness. -/
def predC1 : Prediction :=
  { id := "p", marketId := "m", question := "q", creatorId := "c",
    status := "open", resolution := none, yesPool := 10, noPool := 5 }

/-- Concrete state for the C1 witness: alice bet 10 on yes, bob bet 5 on no. -/
def stateC1 : BettingState :=
  { users := [{ id := "alice", phoneNumber := "1", displayName := "A", balance := 100 },
              { id := "bob", phoneNumber := "2", displayName := "B", balance := 100 }],
    markets := [],
    predictions := [predC1],
    bets := [{ id := "b1", predictionId := "p", userId := "alice", amount := 10,
               position := .yes },
             { id := "b2", predictionId := "p", userId := "bob", amount := 5,
               position := .no }] }

/-- Witness for C1 at the concrete state: resolving yes pays alice
proportionally out of the whole pool and leaves bob with nothing. -/
theorem resolve_payouts_winners_proportional_witness :
    ∃ s' payouts, resolvePrediction stateC1 "p" Position.yes = .ok (s', payouts) ∧
      (0 < winningPoolOf predC1 Position.yes →
        payouts = (winningBets stateC1 "p" Position.yes).map
          (fun b => (b.userId,
            (predC1.yesPool + predC1.noPool) *
              (b.amount / winningPoolOf predC1 Position.yes))) ∧
        (payouts.map (fun q => q.2)).sum = predC1.yesPool + predC1.noPool ∧
        (∀ b ∈ winningBets stateC1 "p" Position.yes,
          balanceOf s'.users b.userId =
            (balanceOf stateC1.users b.userId).map (fun bal =>
              bal + (predC1.yesPool + predC1.noPool) *
                (b.amount / winningPoolOf predC1 Position.yes))) ∧
        (∀ x, x ∉ (winningBets stateC1 "p" Position.yes).map (fun b => b.userId) →
          balanceOf s'.users x = balanceOf stateC1.users x ∧
            x ∉ payouts.map (fun q => q.1))) ∧
      (¬0 < winningPoolOf predC1 Position.yes → payouts = [] ∧
        s'.users = stateC1.users) :=
  resolve_payouts_winners_proportional stateC1 "p" Position.yes predC1
    (by decide) (by decide)
    (by simp [winningPoolOf, winningBets, stateC1, predC1, List.filter])
    (by decide) (by decide)

end Betting

/-- The LMSR market maker state of the trading-engine sketch: liquidity
parameter b and the two outstanding share pools. -/
structure LMSRMarketMaker where
  b : ℝ
  yes_shares : ℝ
  no_shares : ℝ

/-- Total cost function C(q_yes, q_no) = b * ln(exp(yes/b) + exp(no/b)). -/
noncomputable def LMSRMarketMaker.cost (m : LMSRMarketMaker)
    (yes_shares no_shares : ℝ) : ℝ :=
  m.b * Real.log (Real.exp (yes_shares / m.b) + Real.exp (no_shares / m.b))

/-- Current price (probability) of YES shares. -/
noncomputable def LMSRMarketMaker.current_price_yes (m : LMSRMarketMaker) : ℝ :=
  let exp_yes := Real.exp (m.yes_shares / m.b)
  let exp_no := Real.exp (m.no_shares / m.b)
  exp_yes / (exp_yes + exp_no)

/-- Current price (probability) of NO shares. -/
noncomputable def LMSRMarketMaker.current_price_no (m : LMSRMarketMaker) : ℝ :=
  1 - m.current_price_yes

/-- Cost to buy num_shares of the given side ('yes' or anything else = no). -/
noncomputable def LMSRMarketMaker.cost_to_buy (m : LMSRMarketMaker)
    (side : String) (num_shares : ℝ) : ℝ :=
  let old_cost := m.cost m.yes_shares m.no_shares
  let new_cost :=
    if side = "yes" then m.cost (m.yes_shares + num_shares) m.no_shares
    else m.cost m.yes_shares (m.no_shares + num_shares)
  new_cost - old_cost

/-- The binary-search loop of execute_trade: repeatedly halve [low, high],
moving low up to the midpoint while its cost is below the spent amount. -/
noncomputable def LMSRMarketMaker.bisect (m : LMSRMarketMaker) (side : String)
    (amount : ℝ) : ℕ → ℝ × ℝ → ℝ × ℝ
  | 0, lh => lh
  | n + 1, (low, high) =>
    let mid := (low + high) / 2
    if m.cost_to_buy side mid < amount then m.bisect side amount n (mid, high)
    else m.bisect side amount n (low, mid)

/-- Shares returned by execute_trade: midpoint of the final interval after
one hundred bisection iterations started at [0, amount * 10]. -/
noncomputable def LMSRMarketMaker.execute_trade_shares (m : LMSRMarketMaker)
    (side : String) (amount : ℝ) : ℝ :=
  let lh := m.bisect side amount 100 (0, amount * 10)
  (lh.1 + lh.2) / 2

/-- Translation of execute_trade: compute shares received, then update the
pool state on the traded side. -/
noncomputable def LMSRMarketMaker.execute_trade (m : LMSRMarketMaker)
    (side : String) (amount : ℝ) : ℝ × LMSRMarketMaker :=
  let shares := m.execute_trade_shares side amount
  (shares,
    if side = "yes" then { m with yes_shares := m.yes_shares + shares }
    else { m with no_shares := m.no_shares + shares })

/-- The exponential LMSR price form named by the specification (spec words:
priceYes = exp(poolYes/b) / (exp(poolYes/b) + exp(poolNo/b))). -/
noncomputable def priceYes_spec (poolYes poolNo b : ℝ) : ℝ :=
  Real.exp (poolYes / b) / (Real.exp (poolYes / b) + Real.exp (poolNo / b))

/-- The yes price lies strictly inside (0, 1). -/
theorem current_price_yes_mem_Ioo (m : LMSRMarketMaker) :
    0 < m.current_price_yes ∧ m.current_price_yes < 1 := by
  unfold LMSRMarketMaker.current_price_yes
  constructor
  · exact div_pos (Real.exp_pos _) (by positivity)
  · rw [div_lt_one (by positivity)]
    exact lt_add_of_pos_right _ (Real.exp_pos _)

/-- The claim C3 concerns (amended): the LMSR prices always sum to exactly
one and each lies strictly between zero and one, for every market-maker
state. -/
theorem lmsr_price_invariant (m : LMSRMarketMaker) :
    m.current_price_yes + m.current_price_no = 1 ∧
      0 < m.current_price_yes ∧ m.current_price_yes < 1 ∧
      0 < m.current_price_no ∧ m.current_price_no < 1 := by
  obtain ⟨h0, h1⟩ := current_price_yes_mem_Ioo m
  unfold LMSRMarketMaker.current_price_no
  refine ⟨by ring, h0, h1, by linarith, by linarith⟩

namespace Betting

/-- Concrete prediction with an empty yes pool for the C3 counterexample. -/
def zeroYesPred : Prediction :=
  { id := "p", marketId := "m", question := "q", creatorId := "c",
    status := "open", resolution := none, yesPool := 0, noPool := 1 }

/-- Counterexample to C3 as stated: the engine's odds computation
`calculateOdds` yields a yes price of exactly zero (and a no price of exactly
one hundred percent) as soon as the yes pool is empty, violating the strict
bounds 0 < priceYes < 1. -/
theorem calculateOdds_hits_zero_counterexample :
    calculateOdds zeroYesPred = (0, 100) ∧
      ¬(0 < ((calculateOdds zeroYesPred).1 : ℚ) / 100) := by
  have h : calculateOdds zeroYesPred = (0, 100) := by
    unfold calculateOdds zeroYesPred jsRound
    norm_num
  refine ⟨h, ?_⟩
  rw [h]
  norm_num

end Betting

namespace Betting

/-- The claim C6 concerns (amended): the LMSR price really is the exponential
form, also in its equivalent logistic shape, and the no price is its
complement. -/
theorem lmsr_price_exponential_form (m : LMSRMarketMaker) :
    m.current_price_yes = priceYes_spec m.yes_shares m.no_shares m.b ∧
      m.current_price_no = 1 - priceYes_spec m.yes_shares m.no_shares m.b ∧
      m.current_price_yes =
        1 / (1 + Real.exp ((m.no_shares - m.yes_shares) / m.b)) := by
  refine ⟨rfl, rfl, ?_⟩
  show Real.exp (m.yes_shares / m.b) /
      (Real.exp (m.yes_shares / m.b) + Real.exp (m.no_shares / m.b)) =
    1 / (1 + Real.exp ((m.no_shares - m.yes_shares) / m.b))
  rw [sub_div, Real.exp_sub]
  rw [div_eq_div_iff (by positivity) (by positivity)]
  field_simp

end Betting

namespace Betting

/-- Concrete prediction where everybody bet yes, for the C6 counterexample. -/
def fullYesPred : Prediction :=
  { id := "p", marketId := "m", question := "q", creatorId := "c",
    status := "open", resolution := none, yesPool := 1, noPool := 0 }

/-- Counterexample to C6 as stated: with a 1-yes / 0-no pool the engine's
odds computation returns a certainty of one hundred percent, while the
exponential LMSR form (here with the default b = 100) is always strictly
below one — the engine's `calculateOdds` is pool-proportional, not the
exponential form. -/
theorem calculateOdds_not_exponential_counterexample :
    (calculateOdds fullYesPred).1 = 100 ∧
      priceYes_spec 1 0 100 < 1 ∧
      ((calculateOdds fullYesPred).1 : ℝ) / 100 ≠ priceYes_spec 1 0 100 := by
  have h1 : (calculateOdds fullYesPred).1 = 100 := by
    unfold calculateOdds fullYesPred jsRound
    norm_num
  have h2 : priceYes_spec 1 0 100 < 1 := by
    unfold priceYes_spec
    rw [div_lt_one (by positivity)]
    exact lt_add_of_pos_right _ (Real.exp_pos _)
  refine ⟨h1, h2, ?_⟩
  rw [h1]
  norm_num
  exact ne_of_gt h2

/-- Strict monotonicity of the LMSR cost in one pool argument. -/
theorem cost_lt_cost (m : LMSRMarketMaker) (hb : 0 < m.b) (n : ℝ)
    {a1 a2 : ℝ} (h : a1 < a2) : m.cost a1 n < m.cost a2 n := by
  unfold LMSRMarketMaker.cost
  refine mul_lt_mul_of_pos_left ?_ hb
  refine Real.log_lt_log (by positivity) ?_
  have hdiv : a1 / m.b < a2 / m.b := by gcongr
  exact add_lt_add_right (Real.exp_lt_exp.mpr hdiv) _

/-- The LMSR cost function is symmetric in its two pool arguments. -/
theorem cost_comm (m : LMSRMarketMaker) (a n : ℝ) : m.cost a n = m.cost n a := by
  unfold LMSRMarketMaker.cost
  rw [add_comm]

/-- Buying zero shares costs nothing. -/
theorem cost_to_buy_zero (m : LMSRMarketMaker) (side : String) :
    m.cost_to_buy side 0 = 0 := by
  unfold LMSRMarketMaker.cost_to_buy
  split_ifs <;> simp

/-- The cost to buy is strictly increasing in the share quantity. -/
theorem cost_to_buy_lt (m : LMSRMarketMaker) (hb : 0 < m.b) (side : String)
    {s1 s2 : ℝ} (h : s1 < s2) :
    m.cost_to_buy side s1 < m.cost_to_buy side s2 := by
  unfold LMSRMarketMaker.cost_to_buy
  by_cases hs : side = "yes"
  · simp only [if_pos hs]
    exact sub_lt_sub_right (cost_lt_cost m hb _ (by linarith)) _
  · simp only [if_neg hs]
    rw [cost_comm m m.yes_shares (m.no_shares + s1),
      cost_comm m m.yes_shares (m.no_shares + s2)]
    exact sub_lt_sub_right (cost_lt_cost m hb _ (by linarith)) _

/-- The cost to buy is monotone in the share quantity. -/
theorem cost_to_buy_le (m : LMSRMarketMaker) (hb : 0 < m.b) (side : String)
    {s1 s2 : ℝ} (h : s1 ≤ s2) :
    m.cost_to_buy side s1 ≤ m.cost_to_buy side s2 := by
  rcases eq_or_lt_of_le h with rfl | hlt
  · exact le_refl _
  · exact le_of_lt (cost_to_buy_lt m hb side hlt)

/-- The claim C7 concerns: for fixed pools and b > 0, the cost to buy is
strictly monotone in the share quantity and strictly positive for every
positive quantity, on both sides. -/
theorem cost_to_buy_strict_mono_and_pos (m : LMSRMarketMaker) (side : String)
    (hb : 0 < m.b) :
    (∀ s1 s2 : ℝ, 0 < s1 → s1 < s2 →
      m.cost_to_buy side s1 < m.cost_to_buy side s2) ∧
    (∀ sh : ℝ, 0 < sh → 0 < m.cost_to_buy side sh) := by
  constructor
  · intro s1 s2 _ h12
    exact cost_to_buy_lt m hb side h12
  · intro sh hsh
    have h := cost_to_buy_lt m hb side hsh
    rw [cost_to_buy_zero] at h
    exact h

/-- Witness for C7 at the unit market maker: buying one share costs a
positive amount and strictly less than buying two. -/
theorem cost_to_buy_strict_mono_and_pos_witness :
    (LMSRMarketMaker.cost_to_buy ⟨1, 0, 0⟩ "yes" 1 <
      LMSRMarketMaker.cost_to_buy ⟨1, 0, 0⟩ "yes" 2) ∧
    (0 < LMSRMarketMaker.cost_to_buy ⟨1, 0, 0⟩ "yes" 1) := by
  have h := cost_to_buy_strict_mono_and_pos ⟨1, 0, 0⟩ "yes" (by norm_num)
  exact ⟨h.1 1 2 (by norm_num) (by norm_num), h.2 1 (by norm_num)⟩

end Betting

namespace Betting

/-- The bisection keeps its interval nested inside the starting one. -/
theorem bisect_bounds (m : LMSRMarketMaker) (side : String) (amount : ℝ) :
    ∀ (n : ℕ) (low high : ℝ), low ≤ high →
      low ≤ (m.bisect side amount n (low, high)).1 ∧
      (m.bisect side amount n (low, high)).1 ≤
        (m.bisect side amount n (low, high)).2 ∧
      (m.bisect side amount n (low, high)).2 ≤ high
  | 0, low, high, h => ⟨le_refl _, h, le_refl _⟩
  | n + 1, low, high, h => by
    have hmid1 : low ≤ (low + high) / 2 := by linarith
    have hmid2 : (low + high) / 2 ≤ high := by linarith
    simp only [LMSRMarketMaker.bisect]
    split_ifs with hc
    · obtain ⟨ha, hb2, hc2⟩ := bisect_bounds m side amount n _ _ hmid2
      exact ⟨le_trans hmid1 ha, hb2, hc2⟩
    · obtain ⟨ha, hb2, hc2⟩ := bisect_bounds m side amount n _ _ hmid1
      exact ⟨ha, hb2, le_trans hc2 hmid2⟩

/-- After n iterations the bisection interval has width (high - low) / 2^n. -/
theorem bisect_gap (m : LMSRMarketMaker) (side : String) (amount : ℝ) :
    ∀ (n : ℕ) (low high : ℝ),
      (m.bisect side amount n (low, high)).2 -
        (m.bisect side amount n (low, high)).1 = (high - low) / 2 ^ n
  | 0, low, high => by simp [LMSRMarketMaker.bisect]
  | n + 1, low, high => by
    simp only [LMSRMarketMaker.bisect]
    split_ifs with hc
    · rw [bisect_gap m side amount n]
      ring
    · rw [bisect_gap m side amount n]
      ring

/-- The bisection's lower end always has cost below the spent amount. -/
theorem bisect_low_lt (m : LMSRMarketMaker) (side : String) (amount : ℝ) :
    ∀ (n : ℕ) (low high : ℝ), m.cost_to_buy side low < amount →
      m.cost_to_buy side (m.bisect side amount n (low, high)).1 < amount
  | 0, low, high, h => h
  | n + 1, low, high, h => by
    simp only [LMSRMarketMaker.bisect]
    split_ifs with hc
    · exact bisect_low_lt m side amount n _ _ hc
    · exact bisect_low_lt m side amount n _ _ h

/-- The bisection's upper end keeps cost at least the spent amount, whenever
the initial upper bound does. -/
theorem bisect_high_ge (m : LMSRMarketMaker) (side : String) (amount : ℝ) :
    ∀ (n : ℕ) (low high : ℝ), amount ≤ m.cost_to_buy side high →
      amount ≤ m.cost_to_buy side (m.bisect side amount n (low, high)).2
  | 0, low, high, h => h
  | n + 1, low, high, h => by
    simp only [LMSRMarketMaker.bisect]
    split_ifs with hc
    · exact bisect_high_ge m side amount n _ _ h
    · exact bisect_high_ge m side amount n _ _ (not_lt.mp hc)

/-- The claim C5 concerns (amended): when the seeded upper bound brackets the
amount (costToBuy(side, 10 * amount) at least amount), the bisection returns
the midpoint of an interval of width amount * 10 / 2^100 whose lower cost is
below amount and upper cost at least amount — the round-trip property holds
only up to that width; when the seeded upper bound is too small
(costToBuy(side, 10 * amount) < amount), the result stays at most amount * 10
and its cost stays strictly below amount. -/
theorem execute_trade_shares_round_trip (m : LMSRMarketMaker) (side : String)
    (amount : ℝ) (hb : 0 < m.b) (ha : 0 < amount) :
    (m.cost_to_buy side (amount * 10) < amount →
      m.execute_trade_shares side amount ≤ amount * 10 ∧
      m.cost_to_buy side (m.execute_trade_shares side amount) < amount) ∧
    (amount ≤ m.cost_to_buy side (amount * 10) →
      ∃ low high, m.execute_trade_shares side amount = (low + high) / 2 ∧
        low ≤ (low + high) / 2 ∧ (low + high) / 2 ≤ high ∧
        m.cost_to_buy side low < amount ∧
        amount ≤ m.cost_to_buy side high ∧
        high - low = amount * 10 / 2 ^ 100) := by
  have h0 : (0 : ℝ) ≤ amount * 10 := by linarith
  obtain ⟨hl, hm2, hh⟩ := bisect_bounds m side amount 100 0 (amount * 10) h0
  have hzero : m.cost_to_buy side 0 < amount := by
    rw [cost_to_buy_zero]
    exact ha
  constructor
  · intro hdeg
    have hshares : m.execute_trade_shares side amount ≤ amount * 10 := by
      unfold LMSRMarketMaker.execute_trade_shares
      have := le_trans hm2 hh
      linarith [hl, hm2, hh]
    refine ⟨hshares, ?_⟩
    calc m.cost_to_buy side (m.execute_trade_shares side amount)
        ≤ m.cost_to_buy side (amount * 10) := cost_to_buy_le m hb side hshares
      _ < amount := hdeg
  · intro hbr
    refine ⟨(m.bisect side amount 100 (0, amount * 10)).1,
      (m.bisect side amount 100 (0, amount * 10)).2, rfl, by linarith, by linarith,
      bisect_low_lt m side amount 100 0 (amount * 10) hzero,
      bisect_high_ge m side amount 100 0 (amount * 10) hbr, ?_⟩
    rw [bisect_gap m side amount 100 0 (amount * 10)]
    ring

end Betting

namespace Betting

/-- Heavily skewed market maker (b = 100, a thousand no shares): the yes
price is tiny, so ten times the spent amount does not bracket the target. -/
noncomputable def skewedMaker : LMSRMarketMaker :=
  { b := 100, yes_shares := 0, no_shares := 1000 }

/-- Witness for the amended C5 at the skewed market maker with amount one. -/
theorem execute_trade_shares_round_trip_witness :
    (skewedMaker.cost_to_buy "yes" (1 * 10) < 1 →
      skewedMaker.execute_trade_shares "yes" 1 ≤ 1 * 10 ∧
      skewedMaker.cost_to_buy "yes" (skewedMaker.execute_trade_shares "yes" 1) < 1) ∧
    (1 ≤ skewedMaker.cost_to_buy "yes" (1 * 10) →
      ∃ low high, skewedMaker.execute_trade_shares "yes" 1 = (low + high) / 2 ∧
        low ≤ (low + high) / 2 ∧ (low + high) / 2 ≤ high ∧
        skewedMaker.cost_to_buy "yes" low < 1 ∧
        1 ≤ skewedMaker.cost_to_buy "yes" high ∧
        high - low = 1 * 10 / 2 ^ 100) :=
  execute_trade_shares_round_trip skewedMaker "yes" 1
    (by norm_num [skewedMaker]) (by norm_num)

/-- Cost of eleven yes shares at the skewed maker stays far below one. -/
theorem skewed_cost_eleven_lt_one : skewedMaker.cost_to_buy "yes" 11 < 1 := by
  have hcost : skewedMaker.cost_to_buy "yes" 11 =
      100 * Real.log (Real.exp (11 / 100) + Real.exp 10) -
        100 * Real.log (1 + Real.exp 10) := by
    unfold LMSRMarketMaker.cost_to_buy LMSRMarketMaker.cost skewedMaker
    rw [if_pos rfl]
    norm_num [Real.exp_zero]
  have hApos : (0 : ℝ) < Real.exp (11 / 100) + Real.exp 10 := by positivity
  have hBpos : (0 : ℝ) < 1 + Real.exp 10 := by positivity
  have hlog : Real.log (Real.exp (11 / 100) + Real.exp 10) -
      Real.log (1 + Real.exp 10) =
      Real.log ((Real.exp (11 / 100) + Real.exp 10) / (1 + Real.exp 10)) :=
    (Real.log_div (ne_of_gt hApos) (ne_of_gt hBpos)).symm
  have hle : Real.log ((Real.exp (11 / 100) + Real.exp 10) / (1 + Real.exp 10)) ≤
      (Real.exp (11 / 100) + Real.exp 10) / (1 + Real.exp 10) - 1 :=
    Real.log_le_sub_one_of_pos (by positivity)
  have heq : (Real.exp (11 / 100) + Real.exp 10) / (1 + Real.exp 10) - 1 =
      (Real.exp (11 / 100) - 1) / (1 + Real.exp 10) := by
    rw [div_sub_one (ne_of_gt hBpos)]
    ring_nf
  have hnum : Real.exp (11 / 100) - 1 < 2 := by
    have h1 : Real.exp ((11 : ℝ) / 100) < Real.exp 1 :=
      Real.exp_lt_exp.mpr (by norm_num)
    have h2 := Real.exp_one_lt_d9
    linarith
  have hden : (1024 : ℝ) < 1 + Real.exp 10 := by
    have h2e : (2 : ℝ) < Real.exp 1 := by linarith [Real.exp_one_gt_d9]
    have hp : (2 : ℝ) ^ (10 : ℕ) < Real.exp 1 ^ (10 : ℕ) :=
      pow_lt_pow_left₀ h2e (by norm_num) (by norm_num)
    have hexp10 : Real.exp (10 : ℝ) = Real.exp 1 ^ (10 : ℕ) := by
      rw [← Real.exp_nat_mul]
      norm_num
    rw [hexp10]
    norm_num at hp ⊢
    linarith
  have hq : (Real.exp (11 / 100) - 1) / (1 + Real.exp 10) < 2 / 1024 := by
    rw [div_lt_div_iff₀ hBpos (by norm_num)]
    nlinarith [hnum, hden]
  rw [hcost]
  linarith [hlog, hle, heq, hq]

/-- Counterexample to C5 as stated: at the skewed market maker, spending one
unit on yes leaves the bisection's seeded upper bound (ten shares) costing
far less than one, so the returned shares satisfy the round-trip inequality
but are NOT the largest such quantity — adding one unit of precision (1e-9)
still costs strictly less than the spent amount, instead of exceeding it. -/
theorem execute_trade_epsilon_counterexample :
    skewedMaker.cost_to_buy "yes" (skewedMaker.execute_trade_shares "yes" 1) < 1 ∧
      skewedMaker.cost_to_buy "yes"
        (skewedMaker.execute_trade_shares "yes" 1 + 1e-9) < 1 := by
  have hb : (0 : ℝ) < skewedMaker.b := by norm_num [skewedMaker]
  obtain ⟨hl, hm2, hh⟩ :=
    bisect_bounds skewedMaker "yes" 1 100 0 (1 * 10) (by norm_num)
  have hshares : skewedMaker.execute_trade_shares "yes" 1 ≤ 10 := by
    unfold LMSRMarketMaker.execute_trade_shares
    have h10 : (1 : ℝ) * 10 = 10 := by norm_num
    rw [h10] at hl hm2 hh
    linarith
  have heps : (1e-9 : ℝ) ≤ 1 := by norm_num
  constructor
  · calc skewedMaker.cost_to_buy "yes" (skewedMaker.execute_trade_shares "yes" 1)
        ≤ skewedMaker.cost_to_buy "yes" 11 :=
          cost_to_buy_le skewedMaker hb "yes" (by linarith)
      _ < 1 := skewed_cost_eleven_lt_one
  · calc skewedMaker.cost_to_buy "yes"
          (skewedMaker.execute_trade_shares "yes" 1 + 1e-9)
        ≤ skewedMaker.cost_to_buy "yes" 11 :=
          cost_to_buy_le skewedMaker hb "yes" (by linarith)
      _ < 1 := skewed_cost_eleven_lt_one

end Betting

namespace Clout

/-- One trade row as seen by the clout update: the odds snapshot taken at
trade time, the side taken, and the stake (the stake is carried for the
volume-weighting comparison only; update_clout never reads it). -/
structure CloutTrade where
  odds_at_trade : ℚ
  side : String
  amount : ℚ
deriving DecidableEq

/-- ELO K-factor (how much each market moves the score). -/
def K : ℚ := 32

/-- Translation of update_clout: the expected score is the plain arithmetic
mean of odds_at_trade over all the user's trades on the market, flipped when
the first trade's side is not yes; the score update is clamped at zero.  The
Python raises on an empty trade list; the empty case returns the score
unchanged and is outside every claim (each claim assumes at least one
trade). -/
def update_clout (user_trades : List CloutTrade) (clout_score : ℚ)
    (user_won : Bool) : ℚ :=
  match user_trades with
  | [] => clout_score
  | t0 :: _ =>
    let avg_odds :=
      ((user_trades.map (fun t => t.odds_at_trade)).sum) /
        (user_trades.length : ℚ)
    let expected := if t0.side = "yes" then avg_odds else 1 - avg_odds
    let actual : ℚ := if user_won then 1 else 0
    max 0 (clout_score + K * (actual - expected))

/-- Unweighted arithmetic mean of odds_at_trade (what the code computes). -/
def meanOdds (trades : List CloutTrade) : ℚ :=
  ((trades.map (fun t => t.odds_at_trade)).sum) / (trades.length : ℚ)

/-- Volume-weighted mean of odds_at_trade, following the claim's words. -/
def volumeWeightedOdds (trades : List CloutTrade) : ℚ :=
  ((trades.map (fun t => t.odds_at_trade * t.amount)).sum) /
    ((trades.map (fun t => t.amount)).sum)

/-- The claim C8 concerns (amended): for a participant with at least one
trade, the new rating is max(0, old + K * (actual - expected)) with K = 32,
actual = 1 exactly when the participant won, and expected the UNWEIGHTED
arithmetic mean of odds_at_trade over all the participant's trades, read as
the probability of the first trade's side; the result is never negative. -/
theorem update_clout_elo_formula (t0 : CloutTrade) (rest : List CloutTrade)
    (clout_score : ℚ) (user_won : Bool) :
    update_clout (t0 :: rest) clout_score user_won =
      max 0 (clout_score + K *
        ((if user_won then 1 else 0) -
          (if t0.side = "yes" then meanOdds (t0 :: rest)
           else 1 - meanOdds (t0 :: rest)))) ∧
      0 ≤ update_clout (t0 :: rest) clout_score user_won := by
  constructor
  · rfl
  · exact le_max_left 0 _

/-- First concrete trade for the C8 counterexample: small stake at low odds. -/
def tradeA : CloutTrade := { odds_at_trade := 1 / 5, side := "yes", amount := 1 }

/-- Second concrete trade for the C8 counterexample: big stake at high odds. -/
def tradeB : CloutTrade := { odds_at_trade := 4 / 5, side := "yes", amount := 3 }

/-- Counterexample to C8 as stated: with trades of 1 at odds 0.2 and 3 at
odds 0.8, the code's unweighted mean gives a new rating of 1016, while the
claimed volume-weighted mean would give 1011.2 — update_clout does not
volume-weight. -/
theorem update_clout_not_volume_weighted_counterexample :
    update_clout [tradeA, tradeB] 1000 true = 1016 ∧
      max 0 (1000 + K * (1 - volumeWeightedOdds [tradeA, tradeB])) = 5056 / 5 ∧
      update_clout [tradeA, tradeB] 1000 true ≠
        max 0 (1000 + K * (1 - volumeWeightedOdds [tradeA, tradeB])) := by
  have h1 : update_clout [tradeA, tradeB] 1000 true = 1016 := by
    unfold update_clout tradeA tradeB K
    norm_num
  have h2 : max 0 (1000 + K * (1 - volumeWeightedOdds [tradeA, tradeB])) =
      5056 / 5 := by
    unfold volumeWeightedOdds tradeA tradeB K
    norm_num
  refine ⟨h1, h2, ?_⟩
  rw [h1, h2]
  norm_num

end Clout
